import Mathlib

/-!
Verification of the FWRF ("feature-weighted receptive field") model-fitting
core of the repository: `code/model_src/fwrf_fit.py` (ridge cofactor solver,
loss/weight evaluator, candidate-model search loop, best-parameter tracker)
and the PCA fit-once logic of `code/feature_extraction/bdcn_features.py`.

Machine floating-point arithmetic is modelled by exact rationals (`ℚ`),
except where a square root is required (the z-scoring step uses `np.std`),
which is modelled over `ℝ`.
-/

namespace FwrfFit

open Matrix BigOperators

/-- Explicit inverse of a square rational matrix via the adjugate; this is the
shallow embedding of `torch.inverse` as used in `_cofactor_fn_cpu`
(`fwrf_fit.py` line 49).  It agrees with the true inverse whenever the
determinant is nonzero (the singular case raises in torch; only the
nonsingular case is relied on below). -/
def matInv {κ : Type} [Fintype κ] [DecidableEq κ] (M : Matrix κ κ ℚ) : Matrix κ κ ℚ :=
  (M.det)⁻¹ • M.adjugate

/-- One slice of the result of `_cofactor_fn_cpu` (`fwrf_fit.py` lines 49-52):
for a single penalty value `l`, the matrix `(Xᵀ X + l I)⁻¹ Xᵀ`.  The torch
code builds `(mm(t(x), x) + eye * l).inverse()` and then contracts with `x`
over its feature dimension, which is exactly the product with `Xᵀ`. -/
def cofactorSlice {n : ℕ} {κ : Type} [Fintype κ] [DecidableEq κ]
    (X : Matrix (Fin n) κ ℚ) (l : ℚ) : Matrix κ (Fin n) ℚ :=
  matInv (Xᵀ * X + l • 1) * Xᵀ

/-- Embedding of `_cofactor_fn_cpu` (`fwrf_fit.py` lines 33-55): the stacked
`[n_lambdas × n_features × n_trials]` tensor is a list (indexed by lambda) of
`n_features × n_trials` matrices, one `cofactorSlice` per penalty value. -/
def _cofactor_fn_cpu {n : ℕ} {κ : Type} [Fintype κ] [DecidableEq κ]
    (_x : Matrix (Fin n) κ ℚ) (lambdas : List ℚ) : List (Matrix κ (Fin n) ℚ) :=
  lambdas.map (fun l => cofactorSlice _x l)

/-- Embedding of `_loss_fn` (`fwrf_fit.py` lines 59-70).  The tensordot
contractions are written as explicit sums:
`beta[l,i,v] = Σ_t cofactor[l,i,t] * vtrn[t,v]`,
`pred[s,l,v] = Σ_i xout[s,i] * beta[l,i,v]`, and the loss is the sum over
held-out samples of the squared residual,
`loss[l,v] = Σ_s (vout[s,v] - pred[s,l,v])²`. -/
def _loss_fn {L n h nv : ℕ} {κ : Type} [Fintype κ]
    (_cofactor : Fin L → Matrix κ (Fin n) ℚ)
    (_vtrn : Matrix (Fin n) (Fin nv) ℚ)
    (_xout : Matrix (Fin h) κ ℚ)
    (_vout : Matrix (Fin h) (Fin nv) ℚ) :
    (Fin L → Matrix κ (Fin nv) ℚ) × (Fin L → Fin nv → ℚ) :=
  (fun l => Matrix.of fun i v => ∑ t, _cofactor l i t * _vtrn t v,
   fun l v => ∑ s, (_vout s v - ∑ i, _xout s i * ∑ t, _cofactor l i t * _vtrn t v) ^ 2)

/-- First index attaining the minimum of `f`, computed by a left fold over all
indices (the semantics of the index output of `torch.min(_, dim=0)` at
`fwrf_fit.py` line 244: ties resolve to the first, i.e. smallest, index). -/
def argminFin {L : ℕ} (f : Fin (L + 1) → ℚ) : Fin (L + 1) :=
  (List.finRange (L + 1)).foldl (fun acc i => if f i < f acc then i else acc) 0

lemma foldl_argmin_le {L : ℕ} (f : Fin (L + 1) → ℚ) (l : List (Fin (L + 1))) :
    ∀ a : Fin (L + 1),
      f (l.foldl (fun acc i => if f i < f acc then i else acc) a) ≤ f a ∧
      ∀ i ∈ l, f (l.foldl (fun acc i => if f i < f acc then i else acc) a) ≤ f i := by
  induction l with
  | nil => intro a; simp
  | cons x xs ih =>
    intro a
    simp only [List.foldl_cons]
    have hstep : f (if f x < f a then x else a) ≤ f a ∧ f (if f x < f a then x else a) ≤ f x := by
      by_cases h : f x < f a
      · simp [h, le_of_lt h]
      · simp [h, le_of_not_lt h]
    have hrec := ih (if f x < f a then x else a)
    refine ⟨le_trans hrec.1 hstep.1, ?_⟩
    intro i hi
    rcases List.mem_cons.mp hi with rfl | hxs
    · exact le_trans hrec.1 hstep.2
    · exact hrec.2 i hxs

lemma argminFin_le {L : ℕ} (f : Fin (L + 1) → ℚ) (i : Fin (L + 1)) :
    f (argminFin f) ≤ f i :=
  (foldl_argmin_le f (List.finRange (L + 1)) 0).2 i (List.mem_finRange i)

lemma dotProduct_self_nonneg_q {k : ℕ} (w : Fin k → ℚ) : 0 ≤ w ⬝ᵥ w :=
  Finset.sum_nonneg fun i _ => mul_self_nonneg (w i)

/-- The ridge Gram matrix `Xᵀ X + l I` is nonsingular whenever `X` has full
column rank (injective `mulVec`) and `l ≥ 0`. -/
lemma ridge_gram_det_ne_zero {n k : ℕ} (X : Matrix (Fin n) (Fin k) ℚ) (l : ℚ)
    (hrank : Function.Injective X.mulVec) (hl : 0 ≤ l) :
    (Xᵀ * X + l • (1 : Matrix (Fin k) (Fin k) ℚ)).det ≠ 0 := by
  intro hdet
  obtain ⟨v, hv0, hMv⟩ := Matrix.exists_mulVec_eq_zero_iff.mpr hdet
  have h1 : v ⬝ᵥ ((Xᵀ * X + l • 1) *ᵥ v) = (X *ᵥ v) ⬝ᵥ (X *ᵥ v) + l * (v ⬝ᵥ v) := by
    rw [Matrix.add_mulVec, dotProduct_add]
    congr 1
    · rw [← Matrix.mulVec_mulVec, Matrix.dotProduct_mulVec, Matrix.vecMul_transpose]
    · rw [Matrix.smul_mulVec_assoc, Matrix.one_mulVec, dotProduct_smul, smul_eq_mul]
  have h0 : (X *ᵥ v) ⬝ᵥ (X *ᵥ v) + l * (v ⬝ᵥ v) = 0 := by
    rw [← h1, hMv, dotProduct_zero]
  have hXv : (X *ᵥ v) ⬝ᵥ (X *ᵥ v) = 0 := by
    have hnn1 := dotProduct_self_nonneg_q (X *ᵥ v)
    have hnn2 : 0 ≤ l * (v ⬝ᵥ v) := mul_nonneg hl (dotProduct_self_nonneg_q v)
    linarith
  have hXv0 : X *ᵥ v = 0 := dotProduct_self_eq_zero.mp hXv
  exact hv0 (hrank (by rw [hXv0, Matrix.mulVec_zero]))

/-- Claim C2: for every training design matrix `X` with full column rank and
every list of penalties with `λ ≥ 0`, `_cofactor_fn_cpu` returns one slice per
penalty, and the `l`-th slice equals `(Xᵀ X + λ_l I)⁻¹ Xᵀ`: multiplying it by
`(Xᵀ X + λ_l I)` reconstructs `Xᵀ`. -/
theorem cofactor_fn_correct {n k : ℕ} (X : Matrix (Fin n) (Fin k) ℚ) (lambdas : List ℚ)
    (hrank : Function.Injective X.mulVec) (hlam : ∀ l ∈ lambdas, 0 ≤ l) :
    (_cofactor_fn_cpu X lambdas).length = lambdas.length ∧
    ∀ (i : ℕ) (hi : i < lambdas.length) (hi2 : i < (_cofactor_fn_cpu X lambdas).length),
      (Xᵀ * X + lambdas.get ⟨i, hi⟩ • 1) * (_cofactor_fn_cpu X lambdas).get ⟨i, hi2⟩ = Xᵀ := by
  constructor
  · simp [_cofactor_fn_cpu]
  · intro i hi hi2
    have hget : (_cofactor_fn_cpu X lambdas).get ⟨i, hi2⟩ =
        cofactorSlice X (lambdas.get ⟨i, hi⟩) := by
      simp [_cofactor_fn_cpu]
    rw [hget]
    have hmem : lambdas.get ⟨i, hi⟩ ∈ lambdas := List.get_mem lambdas i hi
    have hdet := ridge_gram_det_ne_zero X (lambdas.get ⟨i, hi⟩) hrank
      (hlam (lambdas.get ⟨i, hi⟩) hmem)
    unfold cofactorSlice matInv
    rw [← Matrix.mul_assoc, Matrix.mul_smul, Matrix.mul_adjugate, smul_smul,
      inv_mul_cancel₀ hdet, one_smul, Matrix.one_mul]

/-- Witness for C2 at a concrete input: the 1×1 identity design matrix with
penalty list `[0]`. -/
theorem cofactor_fn_correct_witness :
    Function.Injective (1 : Matrix (Fin 1) (Fin 1) ℚ).mulVec ∧
    (∀ l ∈ ([0] : List ℚ), 0 ≤ l) ∧
    ((1 : Matrix (Fin 1) (Fin 1) ℚ)ᵀ * 1 + (0 : ℚ) • 1) *
      (_cofactor_fn_cpu (1 : Matrix (Fin 1) (Fin 1) ℚ) [(0 : ℚ)]).get ⟨0, by decide⟩ =
      (1 : Matrix (Fin 1) (Fin 1) ℚ)ᵀ := by
  have hinj : Function.Injective (1 : Matrix (Fin 1) (Fin 1) ℚ).mulVec := by
    intro a b hab
    rwa [Matrix.one_mulVec, Matrix.one_mulVec] at hab
  have hlam : ∀ l ∈ ([0] : List ℚ), 0 ≤ l := by
    intro l hl
    simp only [List.mem_singleton] at hl
    simp [hl]
  exact ⟨hinj, hlam,
    (cofactor_fn_correct (1 : Matrix (Fin 1) (Fin 1) ℚ) [(0 : ℚ)] hinj hlam).2 0
      (by decide) (by decide)⟩

/-- Claim C3: `_loss_fn` returns `betas = cofactor ⨯ training targets` (a
matrix product per lambda, of shape features × voxels), and the loss at
`(l, v)` is the sum over held-out trials of the squared residual between the
held-out targets and the held-out design applied to `betas[l]` (a sum of
squares, not a mean). -/
theorem loss_fn_correct {L n h nv : ℕ} {κ : Type} [Fintype κ]
    (cof : Fin L → Matrix κ (Fin n) ℚ) (vtrn : Matrix (Fin n) (Fin nv) ℚ)
    (xout : Matrix (Fin h) κ ℚ) (vout : Matrix (Fin h) (Fin nv) ℚ)
    (l : Fin L) (v : Fin nv) :
    (_loss_fn cof vtrn xout vout).1 l = cof l * vtrn ∧
    (_loss_fn cof vtrn xout vout).2 l v =
      ∑ s, (vout s v - (xout * ((_loss_fn cof vtrn xout vout).1 l)) s v) ^ 2 := by
  constructor
  · ext i w
    simp [_loss_fn, Matrix.mul_apply]
  · simp [_loss_fn, Matrix.mul_apply]

/-! Z-scoring (`fwrf_fit.py` lines 192-196).  Modelled over `ℝ` because
`np.std` takes a square root. -/

/-- Column mean as computed by `np.mean(features, axis=0)` at line 193 of
`fwrf_fit.py`: the mean over ALL rows of the feature matrix (which at that
point still contains both the training and the held-out trials; the split
happens later, at line 202). -/
noncomputable def npColMean {n F : ℕ} (features : Fin n → Fin F → ℝ) (j : Fin F) : ℝ :=
  (∑ t, features t j) / n

/-- Column population standard deviation as computed by
`np.std(features, axis=0)` at line 194 of `fwrf_fit.py`, again over all rows. -/
noncomputable def npColStd {n F : ℕ} (features : Fin n → Fin F → ℝ) (j : Fin F) : ℝ :=
  Real.sqrt ((∑ t, (features t j - npColMean features j) ^ 2) / n)

/-- The z-scoring applied when `zscore=True` (`fwrf_fit.py` lines 192-196):
`features = (features - mean) / (std + 1e-6)` column-wise, with the statistics
taken over axis 0 of the whole (training + held-out) feature matrix. -/
noncomputable def zscoreFeatures {n F : ℕ} (features : Fin n → Fin F → ℝ) : Fin n → Fin F → ℝ :=
  fun t j => (features t j - npColMean features j) / (npColStd features j + 1e-6)

/-- The z-scoring described by the spec (spec section 4.3b / section 8): each
column centred and scaled by the mean and standard deviation of its first
`trn` (training-split) rows only.  Stated for comparison against
`zscoreFeatures`, which is the translation of the source. -/
noncomputable def zscoreFeaturesTrainOnly {n F : ℕ} (trn : ℕ) (features : Fin n → Fin F → ℝ) :
    Fin n → Fin F → ℝ :=
  fun t j =>
    let mu : ℝ := (∑ s, if s.val < trn then features s j else 0) / trn
    let sd : ℝ := Real.sqrt ((∑ s, if s.val < trn then (features s j - mu) ^ 2 else 0) / trn)
    (features t j - mu) / (sd + 1e-6)

/-- Counterexample for claim C5 as stated: z-scoring in the source does NOT
use training-split-only statistics.  With 2 trials of which the first is the
training split (`trn_size = 1`) and a single feature column holding `0` then
`2`, the source normalizes with the all-trials mean 1 and std 1, giving a
nonzero value at trial 0, while training-split-only statistics (mean 0) give
exactly 0 there. -/
theorem zscore_train_only_counterexample :
    zscoreFeatures (fun (t : Fin 2) (_ : Fin 1) => if t.val = 0 then 0 else 2) 0 0 ≠
    zscoreFeaturesTrainOnly 1 (fun (t : Fin 2) (_ : Fin 1) => if t.val = 0 then 0 else 2) 0 0 := by
  have hmean : npColMean (fun (t : Fin 2) (_ : Fin 1) => if t.val = 0 then 0 else 2) 0 = 1 := by
    simp [npColMean, Fin.sum_univ_two]
  have hrhs : zscoreFeaturesTrainOnly 1
      (fun (t : Fin 2) (_ : Fin 1) => if t.val = 0 then 0 else 2) 0 0 = 0 := by
    simp [zscoreFeaturesTrainOnly, Fin.sum_univ_two]
  have hlhs : zscoreFeatures
      (fun (t : Fin 2) (_ : Fin 1) => if t.val = 0 then 0 else 2) 0 0 < 0 := by
    show ((fun (t : Fin 2) (_ : Fin 1) => if t.val = 0 then (0 : ℝ) else 2) 0 0 -
        npColMean (fun (t : Fin 2) (_ : Fin 1) => if t.val = 0 then 0 else 2) 0) /
        (npColStd (fun (t : Fin 2) (_ : Fin 1) => if t.val = 0 then 0 else 2) 0 + 1e-6) < 0
    apply div_neg_of_neg_of_pos
    · rw [hmean]
      norm_num
    · have h0 : (0 : ℝ) ≤ npColStd (fun (t : Fin 2) (_ : Fin 1) => if t.val = 0 then 0 else 2) 0 :=
        Real.sqrt_nonneg _
      have heps : (0 : ℝ) < 1e-6 := by norm_num
      linarith
  rw [hrhs]
  exact ne_of_lt hlhs

/-- Claim C5 amended: when `zscore=True`, every feature column is centred and
scaled, before the train/held-out split, by that column's mean and population
standard deviation computed over ALL trials (training and held-out together),
with `1e-6` added to the standard deviation. -/
theorem zscore_uses_all_trial_stats {n F : ℕ} (features : Fin n → Fin F → ℝ)
    (t : Fin n) (j : Fin F) :
    zscoreFeatures features t j =
      (features t j - (∑ s, features s j) / n) /
        (Real.sqrt ((∑ s, (features s j - (∑ r, features r j) / n) ^ 2) / n) + 1e-6) := rfl

/-! PCA fit-once state logic of `bdcn_feature_extractor.reduce_pca`
(`bdcn_features.py` lines 186-245).  The numerical PCA itself
(`sklearn.decomposition.PCA`) is an external library collaborator; what is
modelled is the mutable per-candidate-model record `n_comp_needed` and the
assertions guarding fitting-mode versus validation-mode calls.  The value
`n_components_reduced` that a fitting call stores is a natural number
computed from the PCA explained-variance output; it enters the model as a
parameter. -/

/-- The extractor state relevant to the fit-once invariant: one entry of
`self.n_comp_needed` per candidate pRF model, initialized to the sentinel
`-1` by `init_for_fitting` (`bdcn_features.py` line 83). -/
structure PcaState (nPrfs : ℕ) where
  n_comp_needed : Fin nPrfs → ℤ

/-- State right after `init_for_fitting`: every candidate model unfit. -/
def pcaInitState (nPrfs : ℕ) : PcaState nPrfs :=
  ⟨fun _ => -1⟩

/-- Embedding of `reduce_pca` (`bdcn_features.py` lines 186-245), restricted
to its state transition and assertion behaviour.  In fitting mode the
assertion `n_comp_needed[prf_model_index] == -1` (line 204) must hold and the
entry is then overwritten with the retained component count (line 225); in
validation mode the assertion `n_comp_needed[prf_model_index] != -1`
(line 234) must hold and the state is unchanged.  A failed `assert` is a
fatal error, modelled as `Except.error`. -/
def reduce_pca {nPrfs : ℕ} (st : PcaState nPrfs) (prf_model_index : Fin nPrfs)
    (fitting_mode : Bool) (n_components_reduced : ℕ) : Except String (PcaState nPrfs) :=
  if fitting_mode then
    if st.n_comp_needed prf_model_index = -1 then
      Except.ok ⟨Function.update st.n_comp_needed prf_model_index (n_components_reduced : ℤ)⟩
    else
      Except.error "assert n_comp_needed == -1 failed"
  else
    if st.n_comp_needed prf_model_index ≠ -1 then
      Except.ok st
    else
      Except.error "assert n_comp_needed != -1 failed"

/-- Claim C8: fit-once reduction semantics.  (1) After a successful
fitting-mode call for a candidate-model index, a second fitting-mode call for
the same index is a hard error.  (2) A validation-mode (`fitting_mode=False`)
call for an index that has never been fit (sentinel still `-1`) is a hard
error; in particular (3) it errs on the freshly initialized state. -/
theorem pca_fit_once_semantics {nPrfs : ℕ} (idx : Fin nPrfs) (nc nc2 : ℕ) :
    (∀ st st2 : PcaState nPrfs, reduce_pca st idx true nc = Except.ok st2 →
       reduce_pca st2 idx true nc2 = Except.error "assert n_comp_needed == -1 failed") ∧
    (∀ st : PcaState nPrfs, st.n_comp_needed idx = -1 →
       reduce_pca st idx false nc = Except.error "assert n_comp_needed != -1 failed") ∧
    reduce_pca (pcaInitState nPrfs) idx false nc =
      Except.error "assert n_comp_needed != -1 failed" := by
  refine ⟨?_, ?_, ?_⟩
  · intro st st2 hok
    rw [reduce_pca] at hok
    simp only [if_true] at hok
    by_cases h : st.n_comp_needed idx = -1
    · rw [if_pos h] at hok
      have hst2 : st2 = ⟨Function.update st.n_comp_needed idx (nc : ℤ)⟩ :=
        (Except.ok.injEq _ _).mp hok.symm |>.symm ▸ rfl
      have hne : st2.n_comp_needed idx ≠ -1 := by
        rw [hst2]
        simp only [Function.update_same]
        omega
      rw [reduce_pca, if_pos rfl, if_neg hne]
    · rw [if_neg h] at hok
      exact absurd hok (by simp)
  · intro st hsent
    rw [reduce_pca]
    simp [hsent]
  · rw [reduce_pca]
    simp [pcaInitState]

/-- Witness for C8 at a concrete input: one candidate model; fitting it once
succeeds, fitting it again fails, and a validation call on the fresh state
fails. -/
theorem pca_fit_once_semantics_witness :
    reduce_pca (pcaInitState 1) 0 true 5 =
      Except.ok ⟨Function.update (pcaInitState 1).n_comp_needed 0 (5 : ℤ)⟩ ∧
    reduce_pca (⟨Function.update (pcaInitState 1).n_comp_needed 0 (5 : ℤ)⟩ : PcaState 1) 0 true 7 =
      Except.error "assert n_comp_needed == -1 failed" ∧
    reduce_pca (pcaInitState 1) 0 false 5 =
      Except.error "assert n_comp_needed != -1 failed" := by
  refine ⟨rfl, ?_, (pca_fit_once_semantics (0 : Fin 1) 5 7).2.2⟩
  exact (pca_fit_once_semantics (0 : Fin 1) 5 7).1 (pcaInitState 1)
    ⟨Function.update (pcaInitState 1).n_comp_needed 0 (5 : ℤ)⟩ rfl

/-! The candidate-model search loop and best-parameter tracker of
`fit_fwrf_model` (`fwrf_fit.py` lines 73-320).

The configuration record collects the quantities that are fixed before the
search loop starts.  The feature extractor is represented by the data it
hands the loop: for each candidate pRF model `m`, a full-width feature
matrix `Xf m` over all (already shuffled) trials together with the boolean
defined-column mask `definedF m` — the compact `[n_trials × n_features_actual]`
matrix the python extractor returns consists exactly of the defined columns
of this full-width matrix, and the column selection
`trn_features[:, nonzero_inds_short]` at lines 219-221 picks, of those, the
columns on which the partial-version mask is 1, i.e. the columns with
`mask ∧ defined`.  Optional z-scoring (lines 192-196) and the bias column
append (lines 198-200) act before the split, so `Xf` is the feature matrix
as of line 201 and `F` counts the bias column when `add_bias=True`.  The
lambda list and the partial-version mask list are nonempty (`nL + 1` and
`nP + 1` entries; index 0 is the full model, asserted at line 252). -/
structure FitCfg where
  n_trials : ℕ
  holdout_size : ℕ
  nv : ℕ
  F : ℕ
  nP : ℕ
  nL : ℕ
  nM : ℕ
  lambdas : Fin (nL + 1) → ℚ
  masksT : Fin F → Fin (nP + 1) → Bool
  definedF : Fin nM → Fin F → Bool
  Xf : Fin nM → Fin n_trials → Fin F → ℚ
  vdata : Fin n_trials → Fin nv → ℚ

/-- The split point `trn_size = n_trials - holdout_size`, computed once at the
top of the fitting run (`fwrf_fit.py` line 120). -/
def trnSize (c : FitCfg) : ℕ := c.n_trials - c.holdout_size

/-- Number of held-out rows: everything after the split point
(`voxel_data[trn_size:]`, line 134). -/
def outSize (c : FitCfg) : ℕ := c.n_trials - trnSize c

/-- Row `t` of the training block is row `t` of the shuffled trial order
(contiguous prefix, `[:trn_size]`). -/
def trnRow (c : FitCfg) (t : Fin (trnSize c)) : Fin c.n_trials :=
  Fin.castLE (Nat.sub_le _ _) t

/-- Row `t` of the held-out block is row `trn_size + t` of the shuffled trial
order (contiguous suffix, `[trn_size:]`). -/
def outRow (c : FitCfg) (t : Fin (outSize c)) : Fin c.n_trials :=
  ⟨trnSize c + t.val, by
    have h := t.isLt
    simp only [outSize] at h
    omega⟩

/-- `trn_data = voxel_data[:trn_size]` (line 133). -/
def trn_data (c : FitCfg) : Matrix (Fin (trnSize c)) (Fin c.nv) ℚ :=
  Matrix.of fun t v => c.vdata (trnRow c t) v

/-- `out_data = voxel_data[trn_size:]` (line 134). -/
def out_data (c : FitCfg) : Matrix (Fin (outSize c)) (Fin c.nv) ℚ :=
  Matrix.of fun t v => c.vdata (outRow c t) v

/-- `np.logical_and(masks[:,pp], feature_inds_defined)` (line 216): a feature
column may enter the solve only if the partial-version mask allows it AND the
extractor actually produced it. -/
def nonzero_inds_full {F : ℕ} (maskCol fid : Fin F → Bool) (j : Fin F) : Bool :=
  maskCol j && fid j

/-- The active-column test for candidate model `m` and partial version `pp`. -/
def activeB (c : FitCfg) (m : Fin c.nM) (pp : Fin (c.nP + 1)) (j : Fin c.F) : Bool :=
  nonzero_inds_full (fun i => c.masksT i pp) (c.definedF m) j

/-- Index type for the active columns of `(m, pp)`: the columns the matrices
sent to the ridge solver actually have. -/
abbrev ACol (c : FitCfg) (m : Fin c.nM) (pp : Fin (c.nP + 1)) : Type :=
  { j : Fin c.F // activeB c m pp j = true }

/-- `_xtrn = trn_features[:, nonzero_inds_short]` (line 220): training rows of
the feature matrix, restricted to the active columns. -/
def xtrnAt (c : FitCfg) (m : Fin c.nM) (pp : Fin (c.nP + 1)) :
    Matrix (Fin (trnSize c)) (ACol c m pp) ℚ :=
  Matrix.of fun t j => c.Xf m (trnRow c t) j.val

/-- `_xout = out_features[:, nonzero_inds_short]` (line 221): held-out rows of
the feature matrix, restricted to the active columns. -/
def xoutAt (c : FitCfg) (m : Fin c.nM) (pp : Fin (c.nP + 1)) :
    Matrix (Fin (outSize c)) (ACol c m pp) ℚ :=
  Matrix.of fun t j => c.Xf m (outRow c t) j.val

/-- `_cof = _cofactor_fn_cpu(_xtrn, lambdas)` (line 225), one slice per
lambda. -/
def cofAt (c : FitCfg) (m : Fin c.nM) (pp : Fin (c.nP + 1)) (l : Fin (c.nL + 1)) :
    Matrix (ACol c m pp) (Fin (trnSize c)) ℚ :=
  cofactorSlice (xtrnAt c m pp) (c.lambdas l)

/-- `_betas, _loss = _loss_fn(_cof, _vtrn, _xout, _vout)` (line 239).  The
voxel batching of lines 230-236 only partitions the voxel axis (each batch
writes its own voxel rows), so the evaluation is modelled for all voxels at
once. -/
def lossPair (c : FitCfg) (m : Fin c.nM) (pp : Fin (c.nP + 1)) :
    (Fin (c.nL + 1) → Matrix (ACol c m pp) (Fin c.nv) ℚ) × (Fin (c.nL + 1) → Fin c.nv → ℚ) :=
  _loss_fn (cofAt c m pp) (trn_data c) (xoutAt c m pp) (out_data c)

/-- Weights for lambda `l`: `betas[l]`. -/
def betaAt (c : FitCfg) (m : Fin c.nM) (pp : Fin (c.nP + 1)) (l : Fin (c.nL + 1)) :
    Matrix (ACol c m pp) (Fin c.nv) ℚ :=
  (lossPair c m pp).1 l

/-- Held-out loss for lambda `l` and voxel `v`: `_loss[l, v]`. -/
def lossAt (c : FitCfg) (m : Fin c.nM) (pp : Fin (c.nP + 1)) (l : Fin (c.nL + 1))
    (v : Fin c.nv) : ℚ :=
  (lossPair c m pp).2 l v

/-- `_lambda_index = torch.min(_loss, dim=0).indices[v]` (line 244). -/
def lambdaIdxAt (c : FitCfg) (m : Fin c.nM) (pp : Fin (c.nP + 1)) (v : Fin c.nv) :
    Fin (c.nL + 1) :=
  argminFin (fun l => lossAt c m pp l v)

/-- `loss_values[v] = torch.min(_loss, dim=0).values[v]` (line 244): the loss
at the argmin lambda. -/
def lossValAt (c : FitCfg) (m : Fin c.nM) (pp : Fin (c.nP + 1)) (v : Fin c.nv) : ℚ :=
  lossAt c m pp (lambdaIdxAt c m pp v) v

/-- The per-voxel best state (`fwrf_fit.py` lines 151-155): weights (dense
over all columns, bias column included), best pRF index, best lambda index
(both initialized to the `-1` sentinel), and best loss (initialized to
`np.inf`, modelled as `none`).  The optional z-score statistics arrays
(lines 161-166, 273-282) are bookkeeping for validation-time normalization
and are not part of any claim below. -/
structure BState (c : FitCfg) where
  best_w_params : Fin c.nv → Fin c.F → Fin (c.nP + 1) → ℚ
  best_prf_models : Fin c.nv → Fin (c.nP + 1) → ℤ
  best_lambdas : Fin c.nv → Fin (c.nP + 1) → ℤ
  best_losses : Fin c.nv → Fin (c.nP + 1) → Option ℚ

/-- Initial best state.  `w0` is the initial per-column weight value: zeros
(line 152), except the appended bias column which is initialized to one
(line 159) when `add_bias=True`. -/
def initState (c : FitCfg) (w0 : Fin c.F → ℚ) : BState c :=
  ⟨fun _ j _ => w0 j, fun _ _ => -1, fun _ _ => -1, fun _ _ => none⟩

/-- The comparison `loss_values < best_losses[rv, 0]` of line 253, with the
`np.inf` initialization of `best_losses`: every finite loss beats `none`. -/
def ltLoss (x : ℚ) : Option ℚ → Bool
  | none => true
  | some b => decide (x < b)

/-- `imp` / `full_model_improved[v]` (lines 209, 253-254): the per-voxel
improvement flag, computed from the FULL model (partial version 0) only. -/
def impFlag (c : FitCfg) (st : BState c) (m : Fin c.nM) (v : Fin c.nv) : Bool :=
  ltLoss (lossValAt c m 0 v) (st.best_losses v 0)

/-- Modelled from the spec: `numpy_utils.select_along_axis` (module
`utils/numpy_utils.py`, a repository file not present under `src/`) as used
at `fwrf_fit.py` line 287, guided by the in-source comment "taking the
weights associated with the best lambda value" (line 284) and spec section
4.3e: for each voxel, pick the beta row belonging to that voxel's selected
lambda index. -/
def select_along_axis (c : FitCfg) (m : Fin c.nM) (pp : Fin (c.nP + 1)) (v : Fin c.nv)
    (j : ACol c m pp) : ℚ :=
  betaAt c m pp (lambdaIdxAt c m pp v) j v

/-- Processing of one candidate pRF model `m` (`fwrf_fit.py` lines 206-294):
the improvement flag is computed once from the full model (pp = 0), and every
partial version `pp` then overwrites, for exactly the flagged voxels, its
loss, lambda index, pRF index and weights with the values of ITS OWN solve at
model `m` (the flag is shared, the recorded values are per-version; lines
256-294).  Weights are the betas at the selected lambda on active columns and
zero elsewhere (lines 286-288). -/
def stepModel (c : FitCfg) (st : BState c) (m : Fin c.nM) : BState c where
  best_w_params := fun v j pp =>
    if impFlag c st m v then
      if h : activeB c m pp j = true then select_along_axis c m pp v ⟨j, h⟩
      else 0
    else st.best_w_params v j pp
  best_prf_models := fun v pp =>
    if impFlag c st m v then (m.val : ℤ) else st.best_prf_models v pp
  best_lambdas := fun v pp =>
    if impFlag c st m v then ((lambdaIdxAt c m pp v).val : ℤ) else st.best_lambdas v pp
  best_losses := fun v pp =>
    if impFlag c st m v then some (lossValAt c m pp v) else st.best_losses v pp

/-- The outer loop over candidate pRF models (line 176), folded in order. -/
def runFit (c : FitCfg) (w0 : Fin c.F → ℚ) (ms : List (Fin c.nM)) : BState c :=
  ms.foldl (stepModel c) (initState c w0)

/-- The sequence of candidate models the outer loop visits: all of them in
order, truncated after the first two in debug mode (`if debug and m>1: break`,
line 177). -/
def modelSequence (c : FitCfg) (debug : Bool) : List (Fin c.nM) :=
  if debug then (List.finRange c.nM).take 2 else List.finRange c.nM

/-- Packaging of the fitting configuration from the raw inputs of
`fit_fwrf_model`: the single upfront trial permutation `order` (lines
123-132) is applied to the voxel data once; `Xf` gives the (shuffled-trial)
feature matrices. -/
def mkCfg (n_trials holdout_size nv F nP nL nM : ℕ) (lambdas : Fin (nL + 1) → ℚ)
    (masksT : Fin F → Fin (nP + 1) → Bool) (definedF : Fin nM → Fin F → Bool)
    (Xf : Fin nM → Fin n_trials → Fin F → ℚ) (voxel_data : Fin n_trials → Fin nv → ℚ)
    (order : Fin n_trials → Fin n_trials) : FitCfg :=
  { n_trials := n_trials, holdout_size := holdout_size, nv := nv, F := F, nP := nP,
    nL := nL, nM := nM, lambdas := lambdas, masksT := masksT, definedF := definedF,
    Xf := Xf, vdata := fun t v => voxel_data (order t) v }

/-- Embedding of the top of `fit_fwrf_model` (`fwrf_fit.py` lines 113-179):
the training-split size is checked first (`assert trn_size>0`, line 121) and
a failure aborts the whole run before anything else happens; otherwise the
search loop runs over the model sequence. -/
def fit_fwrf_model (n_trials holdout_size nv F nP nL nM : ℕ) (lambdas : Fin (nL + 1) → ℚ)
    (masksT : Fin F → Fin (nP + 1) → Bool) (definedF : Fin nM → Fin F → Bool)
    (Xf : Fin nM → Fin n_trials → Fin F → ℚ) (voxel_data : Fin n_trials → Fin nv → ℚ)
    (order : Fin n_trials → Fin n_trials) (w0 : Fin F → ℚ) (debug : Bool) :
    Except String
      (BState (mkCfg n_trials holdout_size nv F nP nL nM lambdas masksT definedF
        Xf voxel_data order)) :=
  if 0 < n_trials - holdout_size then
    Except.ok (runFit _ w0
      (modelSequence (mkCfg n_trials holdout_size nv F nP nL nM lambdas masksT definedF
        Xf voxel_data order) debug))
  else
    Except.error "Training size needs to be greater than zero"

/-- Appending the always-on bias column to the partial-version masks:
`masks = np.concatenate([masks, np.ones([n_versions, 1])], axis=1)`
(`fwrf_fit.py` line 147). -/
def masksWithBias {nPv maxF : ℕ} (masks : Fin nPv → Fin maxF → Bool) :
    Fin nPv → Fin (maxF + 1) → Bool :=
  fun pp j => if h : j.val < maxF then masks pp ⟨j.val, h⟩ else true

/-- Marking the appended bias column as always defined:
`feature_inds_defined = np.concatenate((feature_inds_defined, [True]))`
(`fwrf_fit.py` line 200). -/
def definedWithBias {maxF : ℕ} (fid : Fin maxF → Bool) : Fin (maxF + 1) → Bool :=
  fun j => if h : j.val < maxF then fid ⟨j.val, h⟩ else true

lemma foldl_inv {α β : Type} (P : β → Prop) (f : β → α → β)
    (hf : ∀ b a, P b → P (f b a)) :
    ∀ (l : List α) (b : β), P b → P (l.foldl f b) := by
  intro l
  induction l with
  | nil => intro b hb; simpa using hb
  | cons x xs ih =>
    intro b hb
    simp only [List.foldl_cons]
    exact ih (f b x) (hf b x hb)

lemma step_fields_unchanged (c : FitCfg) (st : BState c) (m : Fin c.nM) (v : Fin c.nv)
    (h : impFlag c st m v = false) (pp : Fin (c.nP + 1)) :
    (stepModel c st m).best_prf_models v pp = st.best_prf_models v pp ∧
    (stepModel c st m).best_lambdas v pp = st.best_lambdas v pp ∧
    (stepModel c st m).best_losses v pp = st.best_losses v pp ∧
    ∀ j, (stepModel c st m).best_w_params v j pp = st.best_w_params v j pp := by
  refine ⟨?_, ?_, ?_, fun j => ?_⟩ <;> simp [stepModel, h]

/-- What the tracker stores at `(v, pp)` when candidate model `m` wins: its
index, the per-version argmin lambda index, the per-version loss at that
lambda, and the per-version betas on active columns (zero elsewhere). -/
def RecordedAt (c : FitCfg) (st : BState c) (v : Fin c.nv) (pp : Fin (c.nP + 1))
    (m : Fin c.nM) : Prop :=
  st.best_prf_models v pp = (m.val : ℤ) ∧
  st.best_lambdas v pp = ((lambdaIdxAt c m pp v).val : ℤ) ∧
  st.best_losses v pp = some (lossValAt c m pp v) ∧
  ∀ j : Fin c.F, st.best_w_params v j pp =
    if h : activeB c m pp j = true then betaAt c m pp (lambdaIdxAt c m pp v) ⟨j, h⟩ v else 0

lemma step_recorded (c : FitCfg) (st : BState c) (m : Fin c.nM) (v : Fin c.nv)
    (h : impFlag c st m v = true) (pp : Fin (c.nP + 1)) :
    RecordedAt c (stepModel c st m) v pp m := by
  refine ⟨?_, ?_, ?_, fun j => ?_⟩ <;> simp [stepModel, RecordedAt, select_along_axis, h]

lemma runFit_good (c : FitCfg) (w0 : Fin c.F → ℚ) (ms : List (Fin c.nM))
    (v : Fin c.nv) (pp : Fin (c.nP + 1)) :
    (runFit c w0 ms).best_prf_models v pp = -1 ∨
    ∃ m, RecordedAt c (runFit c w0 ms) v pp m := by
  have H := foldl_inv
    (fun st : BState c => ∀ v pp, st.best_prf_models v pp = -1 ∨ ∃ m, RecordedAt c st v pp m)
    (stepModel c) ?hstep ms (initState c w0) ?hinit
  · exact H v pp
  case hinit => intro v' pp'; left; rfl
  case hstep =>
    intro st m hst v' pp'
    by_cases h : impFlag c st m v'
    · exact Or.inr ⟨m, step_recorded c st m v' h pp'⟩
    · have hun := step_fields_unchanged c st m v' (by simpa using h) pp'
      rcases hst v' pp' with h1 | ⟨m', hprf, hlam, hloss, hw⟩
      · left; rw [hun.1, h1]
      · right
        exact ⟨m', hun.1.trans hprf, hun.2.1.trans hlam, hun.2.2.1.trans hloss,
          fun j => (hun.2.2.2 j).trans (hw j)⟩

lemma runFit_coupling (c : FitCfg) (w0 : Fin c.F → ℚ) (ms : List (Fin c.nM))
    (v : Fin c.nv) (pp : Fin (c.nP + 1)) :
    (runFit c w0 ms).best_prf_models v pp = (runFit c w0 ms).best_prf_models v 0 := by
  have H := foldl_inv
    (fun st : BState c => ∀ v pp, st.best_prf_models v pp = st.best_prf_models v 0)
    (stepModel c) ?hstep ms (initState c w0) ?hinit
  · exact H v pp
  case hinit => intro v' pp'; rfl
  case hstep =>
    intro st m hst v' pp'
    by_cases h : impFlag c st m v'
    · simp [stepModel, h]
    · simp [stepModel, h, hst v' pp']

/-- Claim C1: partial-version coupling.  Whenever `fit_fwrf_model` completes,
the recorded best candidate-model index of every voxel is identical across
all partial versions — non-full versions reuse the full model's improvement
flag (`full_model_improved`), so they always record the candidate model that
won the full-model comparison. -/
theorem partial_version_coupling (n_trials holdout_size nv F nP nL nM : ℕ)
    (lambdas : Fin (nL + 1) → ℚ) (masksT : Fin F → Fin (nP + 1) → Bool)
    (definedF : Fin nM → Fin F → Bool) (Xf : Fin nM → Fin n_trials → Fin F → ℚ)
    (voxel_data : Fin n_trials → Fin nv → ℚ) (order : Fin n_trials → Fin n_trials)
    (w0 : Fin F → ℚ) (debug : Bool)
    (st : BState (mkCfg n_trials holdout_size nv F nP nL nM lambdas masksT definedF
      Xf voxel_data order))
    (hok : fit_fwrf_model n_trials holdout_size nv F nP nL nM lambdas masksT definedF
      Xf voxel_data order w0 debug = Except.ok st)
    (v : Fin nv) (pp : Fin (nP + 1)) :
    st.best_prf_models v pp = st.best_prf_models v 0 := by
  rw [fit_fwrf_model] at hok
  by_cases h : 0 < n_trials - holdout_size
  · rw [if_pos h] at hok
    injection hok with hok
    subst hok
    exact runFit_coupling
      (mkCfg n_trials holdout_size nv F nP nL nM lambdas masksT definedF Xf voxel_data order)
      w0 (modelSequence _ debug) v pp
  · rw [if_neg h] at hok
    exact absurd hok (by simp)

/-- Claim C4: best-parameter tracker update rule.  The improvement flag for a
voxel is true exactly when the candidate's full-model held-out loss
(minimized over lambda) is strictly below the stored best (`np.inf` at
initialization beats nothing); a true flag overwrites the full-model state
with the candidate's values, a false flag leaves every component of every
partial version untouched, and in particular an exactly-equal loss (a tie)
keeps the earlier-seen candidate's parameters. -/
theorem tracker_update_rule (c : FitCfg) (st : BState c) (m : Fin c.nM) (v : Fin c.nv) :
    (impFlag c st m v = true ↔ ∀ b, st.best_losses v 0 = some b → lossValAt c m 0 v < b) ∧
    (impFlag c st m v = true →
      (stepModel c st m).best_prf_models v 0 = (m.val : ℤ) ∧
      (stepModel c st m).best_losses v 0 = some (lossValAt c m 0 v) ∧
      (stepModel c st m).best_lambdas v 0 = ((lambdaIdxAt c m 0 v).val : ℤ)) ∧
    (impFlag c st m v = false →
      ∀ pp, (stepModel c st m).best_prf_models v pp = st.best_prf_models v pp ∧
        (stepModel c st m).best_lambdas v pp = st.best_lambdas v pp ∧
        (stepModel c st m).best_losses v pp = st.best_losses v pp ∧
        ∀ j, (stepModel c st m).best_w_params v j pp = st.best_w_params v j pp) ∧
    (st.best_losses v 0 = some (lossValAt c m 0 v) → impFlag c st m v = false) := by
  refine ⟨?_, ?_, ?_, ?_⟩
  · constructor
    · intro h b hb
      have hlt : ltLoss (lossValAt c m 0 v) (st.best_losses v 0) = true := h
      rw [hb] at hlt
      exact of_decide_eq_true hlt
    · intro h
      show ltLoss (lossValAt c m 0 v) (st.best_losses v 0) = true
      cases hb : st.best_losses v 0 with
      | none => rfl
      | some b => exact decide_eq_true (h b hb)
  · intro h
    refine ⟨?_, ?_, ?_⟩ <;> simp [stepModel, h]
  · intro h pp
    exact step_fields_unchanged c st m v h pp
  · intro h
    show ltLoss (lossValAt c m 0 v) (st.best_losses v 0) = false
    rw [h]
    show decide (lossValAt c m 0 v < lossValAt c m 0 v) = false
    simp

/-- Claim C6: round-trip of recorded parameters.  For every voxel and partial
version with a recorded best state (pRF index not the `-1` sentinel), there
is a candidate model `m` such that the stored index is `m`, the stored lambda
index is the argmin lambda of that version's solve at `m`, the stored weight
vector is zero outside the active columns, the stored loss equals the
held-out sum of squared residuals obtained by applying the stored weights to
the active columns of the held-out block, and it equals the minimum over
lambda of that version's held-out loss, attained at the stored lambda
index. -/
theorem recorded_params_round_trip (c : FitCfg) (w0 : Fin c.F → ℚ) (ms : List (Fin c.nM))
    (v : Fin c.nv) (pp : Fin (c.nP + 1))
    (hrec : (runFit c w0 ms).best_prf_models v pp ≠ -1) :
    ∃ m : Fin c.nM,
      (runFit c w0 ms).best_prf_models v pp = (m.val : ℤ) ∧
      (runFit c w0 ms).best_lambdas v pp = ((lambdaIdxAt c m pp v).val : ℤ) ∧
      (∀ j : Fin c.F, activeB c m pp j = false →
        (runFit c w0 ms).best_w_params v j pp = 0) ∧
      (runFit c w0 ms).best_losses v pp =
        some (∑ s, (out_data c s v - ∑ j : ACol c m pp, xoutAt c m pp s j *
          (runFit c w0 ms).best_w_params v j.val pp) ^ 2) ∧
      (runFit c w0 ms).best_losses v pp = some (lossAt c m pp (lambdaIdxAt c m pp v) v) ∧
      ∀ l, lossAt c m pp (lambdaIdxAt c m pp v) v ≤ lossAt c m pp l v := by
  rcases runFit_good c w0 ms v pp with h1 | ⟨m, hprf, hlam, hloss, hw⟩
  · exact absurd h1 hrec
  · refine ⟨m, hprf, hlam, ?_, ?_, hloss,
      fun l => argminFin_le (fun l2 => lossAt c m pp l2 v) l⟩
    · intro j hj
      rw [hw j, dif_neg (by simp [hj])]
    · rw [hloss]
      congr 1
      have hsum : ∀ s, ∑ j : ACol c m pp, xoutAt c m pp s j *
          (runFit c w0 ms).best_w_params v j.val pp =
          ∑ j : ACol c m pp, xoutAt c m pp s j *
            betaAt c m pp (lambdaIdxAt c m pp v) j v := by
        intro s
        refine Finset.sum_congr rfl fun j _ => ?_
        rw [hw j.val, dif_pos j.prop]
      have hform : lossValAt c m pp v =
          ∑ s, (out_data c s v - ∑ j : ACol c m pp, xoutAt c m pp s j *
            betaAt c m pp (lambdaIdxAt c m pp v) j v) ^ 2 := rfl
      rw [hform]
      exact Finset.sum_congr rfl fun s _ => by rw [hsum s]

/-- Claim C7: fixed train/holdout split.  The split point is
`trn_size = n_trials - holdout_size`, computed once from the run
configuration; the training block is always the first `trn_size` rows and
the held-out block the following rows of the single upfront (optionally
shuffled) trial order, for the voxel data and for the feature matrix of
every candidate model and every partial version alike; and the configuration
built by `fit_fwrf_model` applies the shuffle permutation to the trial axis
exactly once. -/
theorem fixed_train_holdout_split (c : FitCfg) :
    trnSize c = c.n_trials - c.holdout_size ∧
    (∀ t : Fin (trnSize c), (trnRow c t).val = t.val) ∧
    (∀ t : Fin (outSize c), (outRow c t).val = trnSize c + t.val) ∧
    (∀ (m : Fin c.nM) (pp : Fin (c.nP + 1)) (t : Fin (trnSize c)) (j : ACol c m pp),
      xtrnAt c m pp t j = c.Xf m (trnRow c t) j.val) ∧
    (∀ (m : Fin c.nM) (pp : Fin (c.nP + 1)) (t : Fin (outSize c)) (j : ACol c m pp),
      xoutAt c m pp t j = c.Xf m (outRow c t) j.val) ∧
    (∀ (t : Fin (trnSize c)) (v : Fin c.nv), trn_data c t v = c.vdata (trnRow c t) v) ∧
    (∀ (t : Fin (outSize c)) (v : Fin c.nv), out_data c t v = c.vdata (outRow c t) v) ∧
    (∀ (nt hs nv F nP nL nM : ℕ) (lam : Fin (nL + 1) → ℚ)
       (mk : Fin F → Fin (nP + 1) → Bool) (df : Fin nM → Fin F → Bool)
       (Xf : Fin nM → Fin nt → Fin F → ℚ) (vd : Fin nt → Fin nv → ℚ)
       (ord : Fin nt → Fin nt) (t : Fin nt) (v : Fin nv),
      (mkCfg nt hs nv F nP nL nM lam mk df Xf vd ord).vdata t v = vd (ord t) v) :=
  ⟨rfl, fun _ => rfl, fun _ => rfl, fun _ _ _ _ => rfl, fun _ _ _ _ => rfl,
    fun _ _ => rfl, fun _ _ => rfl,
    fun _ _ _ _ _ _ _ _ _ _ _ _ _ _ _ => rfl⟩

/-- Claim C9: non-positive training-split size is fatal.  Whenever
`n_trials - holdout_size ≤ 0`, the run aborts with the assertion message
immediately — the result is this error for EVERY shuffle order, feature
extractor and data set, i.e. before any of them is consulted and before any
best-state array exists. -/
theorem nonpositive_train_size_fatal (n_trials holdout_size nv F nP nL nM : ℕ)
    (lambdas : Fin (nL + 1) → ℚ) (masksT : Fin F → Fin (nP + 1) → Bool)
    (definedF : Fin nM → Fin F → Bool) (Xf : Fin nM → Fin n_trials → Fin F → ℚ)
    (voxel_data : Fin n_trials → Fin nv → ℚ) (order : Fin n_trials → Fin n_trials)
    (w0 : Fin F → ℚ) (debug : Bool) (h : n_trials ≤ holdout_size) :
    fit_fwrf_model n_trials holdout_size nv F nP nL nM lambdas masksT definedF Xf
      voxel_data order w0 debug =
    Except.error "Training size needs to be greater than zero" := by
  rw [fit_fwrf_model, if_neg (by omega : ¬ 0 < n_trials - holdout_size)]

/-- Claim C10: when `add_bias=True`, the appended bias column is part of
every partial-version mask and its defined-mask entry is true, so the
intercept column (the last index) passes the `mask ∧ defined` active-column
test of every ridge solve, for every candidate model and every partial
version. -/
theorem bias_column_always_active (n_trials holdout_size nv maxF nP nL nM : ℕ)
    (lambdas : Fin (nL + 1) → ℚ) (masks : Fin (nP + 1) → Fin maxF → Bool)
    (fid : Fin nM → Fin maxF → Bool) (Xf : Fin nM → Fin n_trials → Fin (maxF + 1) → ℚ)
    (voxel_data : Fin n_trials → Fin nv → ℚ) (order : Fin n_trials → Fin n_trials)
    (m : Fin nM) (pp : Fin (nP + 1)) :
    masksWithBias masks pp (Fin.last maxF) = true ∧
    definedWithBias (fid m) (Fin.last maxF) = true ∧
    activeB (mkCfg n_trials holdout_size nv (maxF + 1) nP nL nM lambdas
        (fun j pp2 => masksWithBias masks pp2 j) (fun m2 => definedWithBias (fid m2))
        Xf voxel_data order) m pp (Fin.last maxF) = true := by
  refine ⟨?_, ?_, ?_⟩ <;>
    simp [masksWithBias, definedWithBias, activeB, nonzero_inds_full, mkCfg, Fin.last]

/-- Concrete configuration used by the witnesses: 2 trials (1 training, 1
held out), 1 voxel, 1 feature column, 2 partial versions, 1 lambda (= 0), 1
candidate model, all-ones features and data, identity shuffle. -/
abbrev cW : FitCfg :=
  { n_trials := 2, holdout_size := 1, nv := 1, F := 1, nP := 1, nL := 0, nM := 1,
    lambdas := fun _ => 0, masksT := fun _ _ => true, definedF := fun _ _ => true,
    Xf := fun _ _ _ => 1, vdata := fun _ _ => 1 }

/-- Initial weights for the witness configuration. -/
abbrev w0W : Fin 1 → ℚ := fun _ => 0

/-- Witness for C1 at a concrete input: the 2-partial-version run above
completes, and the recorded best-pRF index of voxel 0 agrees between partial
version 1 and the full model. -/
theorem partial_version_coupling_witness :
    fit_fwrf_model 2 1 1 1 1 0 1 (fun _ => 0) (fun _ _ => true) (fun _ _ => true)
      (fun _ _ _ => 1) (fun _ _ => 1) (fun t => t) (fun _ => 0) false =
      Except.ok (runFit cW w0W (modelSequence cW false)) ∧
    (runFit cW w0W (modelSequence cW false)).best_prf_models 0 1 =
      (runFit cW w0W (modelSequence cW false)).best_prf_models 0 0 :=
  ⟨rfl, partial_version_coupling 2 1 1 1 1 0 1 (fun _ => 0) (fun _ _ => true)
    (fun _ _ => true) (fun _ _ _ => 1) (fun _ _ => 1) (fun t => t) (fun _ => 0) false
    (runFit cW w0W (modelSequence cW false)) rfl 0 1⟩

/-- Witness for C4 at a concrete input: on the freshly initialized state
(best loss `np.inf`) the improvement flag is true and the step records the
candidate model's index. -/
theorem tracker_update_rule_witness :
    impFlag cW (initState cW w0W) 0 0 = true ∧
    (stepModel cW (initState cW w0W) 0).best_prf_models 0 0 = 0 :=
  ⟨rfl, ((tracker_update_rule cW (initState cW w0W) 0 0).2.1 rfl).1⟩

/-- Witness for C6 at a concrete input: after one step of the concrete run,
voxel 0 has a recorded best state and the round-trip properties hold. -/
theorem recorded_params_round_trip_witness :
    (runFit cW w0W [0]).best_prf_models 0 0 ≠ -1 ∧
    ∃ m : Fin cW.nM,
      (runFit cW w0W [0]).best_prf_models 0 0 = (m.val : ℤ) ∧
      (runFit cW w0W [0]).best_lambdas 0 0 = ((lambdaIdxAt cW m 0 0).val : ℤ) ∧
      (∀ j : Fin cW.F, activeB cW m 0 j = false →
        (runFit cW w0W [0]).best_w_params 0 j 0 = 0) ∧
      (runFit cW w0W [0]).best_losses 0 0 =
        some (∑ s, (out_data cW s 0 - ∑ j : ACol cW m 0, xoutAt cW m 0 s j *
          (runFit cW w0W [0]).best_w_params 0 j.val 0) ^ 2) ∧
      (runFit cW w0W [0]).best_losses 0 0 = some (lossAt cW m 0 (lambdaIdxAt cW m 0 0) 0) ∧
      ∀ l, lossAt cW m 0 (lambdaIdxAt cW m 0 0) 0 ≤ lossAt cW m 0 l 0 :=
  ⟨by decide, recorded_params_round_trip cW w0W [0] 0 0 (by decide)⟩

/-- Witness for C9 at a concrete input: 1 trial with holdout 1 gives a
non-positive training split and the run aborts with the assertion message. -/
theorem nonpositive_train_size_fatal_witness :
    (1 : ℕ) ≤ 1 ∧
    fit_fwrf_model 1 1 1 1 0 0 1 (fun _ => 0) (fun _ _ => true) (fun _ _ => true)
      (fun _ _ _ => 1) (fun _ _ => 1) (fun t => t) (fun _ => 0) false =
      Except.error "Training size needs to be greater than zero" :=
  ⟨le_refl 1, nonpositive_train_size_fatal 1 1 1 1 0 0 1 (fun _ => 0) (fun _ _ => true)
    (fun _ _ => true) (fun _ _ _ => 1) (fun _ _ => 1) (fun t => t) (fun _ => 0) false
    (le_refl 1)⟩

end FwrfFit
